import Mathlib

/-!
Verification of the json_parsing repository (Rust): a shallow embedding of
`src/tokenize.rs` and `src/parse.rs` in Lean 4, together with theorems
settling the specification claims about tokenization, parsing, and the
shared string-unescape routine.

Conventions of the embedding:
* Rust `Vec<char>` / `&str` character data is `List Char`; cursor indices are `Nat`.
* Rust `&mut usize` cursors become explicit index passing: each function takes
  the current index and returns the updated one.
* A Rust out-of-bounds slice/vec index (`chars[i]` with `i >= len`) is a panic;
  panics are modelled by the dedicated `RunResult.panic` outcome, kept distinct
  from the classified `err` outcomes and from `outOfFuel` (the marker used when
  the fuel of a source `while`/recursion loop is exhausted, which never happens
  at the fuel budgets the entry points choose).
* The `f64` payload of a number token is abstracted as the numeric text that
  `tokenize_float` accumulates (ASCII digits with at most one dot): Rust's
  `str::parse::<f64>` is modelled by `parse_f64` on exactly those strings. No
  claim in this development depends on the floating-point value itself.
-/

namespace JsonParsing

/-- Outcome of running an embedded Rust function: a normal result, a classified
error (the Rust `Err`), a panic (Rust index-out-of-bounds), or fuel exhaustion
(a marker that the chosen fuel bound was too small; unreachable at the budgets
used by the entry points). -/
inductive RunResult (ε : Type) (α : Type) where
  | ok (a : α)
  | err (e : ε)
  | panic
  | outOfFuel
deriving DecidableEq, Repr

/-- `Token` from src/tokenize.rs. The number payload is the raw numeric text
(see the header note); the string payload is the raw, still-escaped text. -/
inductive Token where
  | leftBrace
  | rightBrace
  | leftBracket
  | rightBracket
  | comma
  | colon
  | null
  | falseLit
  | trueLit
  | number (s : List Char)
  | string (s : List Char)
deriving DecidableEq, Repr

/-- `TokenizeError` from src/tokenize.rs. `ParseNumberError` wraps a
`ParseFloatError` payload in the source; the payload is dropped here. -/
inductive TokenizeError where
  | UnfinishedLiteralValue
  | ParseNumberError
  | UnclosedQuotes
  | UnexpectedEof
  | CharNotRecognized (c : Char)
deriving DecidableEq, Repr

/-- Rust `char::is_ascii_whitespace`: space, horizontal tab, newline,
form feed (U+000C), carriage return. -/
def is_ascii_whitespace (c : Char) : Bool :=
  c = ' ' ∨ c = '\t' ∨ c = '\n' ∨ c = Char.ofNat 12 ∨ c = '\r'

/-- The whitespace-skipping loop at the top of `make_token`
(src/tokenize.rs lines 49-57): reads `chars[index]` (panicking when out of
bounds, as the slice index would), skips ASCII whitespace, and fails with
`UnexpectedEof` when the increment reaches the end of input while skipping.
Returns the first non-whitespace character together with its index. -/
def skip_ws_f : Nat → List Char → Nat → RunResult TokenizeError (Char × Nat)
  | 0, _, _ => .outOfFuel
  | fuel + 1, chars, i =>
    if h : i < chars.length then
      let ch := chars.get ⟨i, h⟩
      if is_ascii_whitespace ch then
        if i + 1 ≥ chars.length then .err .UnexpectedEof
        else skip_ws_f fuel chars (i + 1)
      else .ok (ch, i)
    else .panic

/-- Entry point of the whitespace loop, with fuel the loop cannot exhaust
(the index grows strictly on every iteration and is bounded by the length). -/
def skip_ws (chars : List Char) (i : Nat) : RunResult TokenizeError (Char × Nat) :=
  skip_ws_f (chars.length + 1) chars i

/-- The common loop of `tokenize_null` / `tokenize_false` / `tokenize_true`
(src/tokenize.rs lines 78-109): compare the input character-by-character with
the expected keyword, reading `chars[*index]` first (panic when out of bounds)
and failing with `UnfinishedLiteralValue` at the first mismatch; after the
keyword matches, step the index back by one so it rests on the keyword's last
character. -/
def tokenize_lit : List Char → List Char → Nat → RunResult TokenizeError Nat
  | [], _, i => .ok (i - 1)
  | e :: rest, chars, i =>
    if h : i < chars.length then
      if chars.get ⟨i, h⟩ = e then tokenize_lit rest chars (i + 1)
      else .err .UnfinishedLiteralValue
    else .panic

/-- `tokenize_null` (src/tokenize.rs lines 78-87). -/
def tokenize_null (chars : List Char) (i : Nat) : RunResult TokenizeError (Token × Nat) :=
  match tokenize_lit ['n', 'u', 'l', 'l'] chars i with
  | .ok j => .ok (.null, j)
  | .err e => .err e
  | .panic => .panic
  | .outOfFuel => .outOfFuel

/-- `tokenize_false` (src/tokenize.rs lines 89-98). -/
def tokenize_false (chars : List Char) (i : Nat) : RunResult TokenizeError (Token × Nat) :=
  match tokenize_lit ['f', 'a', 'l', 's', 'e'] chars i with
  | .ok j => .ok (.falseLit, j)
  | .err e => .err e
  | .panic => .panic
  | .outOfFuel => .outOfFuel

/-- `tokenize_true` (src/tokenize.rs lines 100-109). -/
def tokenize_true (chars : List Char) (i : Nat) : RunResult TokenizeError (Token × Nat) :=
  match tokenize_lit ['t', 'r', 'u', 'e'] chars i with
  | .ok j => .ok (.trueLit, j)
  | .err e => .err e
  | .panic => .panic
  | .outOfFuel => .outOfFuel

/-- The accumulation loop of `tokenize_float` (src/tokenize.rs lines 115-126):
consume a maximal run of ASCII digits with at most one `.`, returning the
accumulated text and the index of the first unconsumed character (note: this
loop, unlike the keyword tokenizers, does not step the index back onto the
last consumed character). -/
def tokenize_float_loop : Nat → List Char → Nat → List Char → Bool →
    Option (List Char × Nat)
  | 0, _, _, _, _ => none
  | fuel + 1, chars, i, acc, has_decimal =>
    if h : i < chars.length then
      let ch := chars.get ⟨i, h⟩
      if ch.isDigit then tokenize_float_loop fuel chars (i + 1) (acc ++ [ch]) has_decimal
      else if ch = '.' ∧ has_decimal = false then
        tokenize_float_loop fuel chars (i + 1) (acc ++ ['.']) true
      else some (acc, i)
    else some (acc, i)

/-- Rust `str::parse::<f64>` restricted to the strings `tokenize_float`
builds (ASCII digits with at most one dot): it succeeds exactly when at least
one digit is present ("" and "." fail, "1", "1.", "1.23" succeed); the decoded
numeric value is represented by the numeric text itself, since no claim in
this development depends on the floating-point value. -/
def parse_f64 (s : List Char) : Option (List Char) :=
  if s.any Char.isDigit then some s else none

/-- `tokenize_float` (src/tokenize.rs lines 111-132), running the
accumulation loop with fuel it cannot exhaust. -/
def tokenize_float (chars : List Char) (i : Nat) : RunResult TokenizeError (Token × Nat) :=
  match tokenize_float_loop (chars.length + 1) chars i [] false with
  | none => .outOfFuel
  | some r =>
    match parse_f64 r.1 with
    | some s => .ok (.number s, r.2)
    | none => .err .ParseNumberError

/-- The scanning loop of `tokenize_string` (src/tokenize.rs lines 139-153):
starting from the opening quote at index `i`, advance and accumulate
characters until an unescaped closing quote, toggling the escape flag on a
backslash and clearing it on any other character; the closing quote's index is
returned and reaching end of input fails with `UnclosedQuotes`. -/
def tokenize_string_loop : Nat → List Char → Nat → List Char → Bool →
    RunResult TokenizeError (Token × Nat)
  | 0, _, _, _, _ => .outOfFuel
  | fuel + 1, chars, i, acc, is_escaping =>
    if h : i + 1 < chars.length then
      let ch := chars.get ⟨i + 1, h⟩
      if ch = '"' ∧ is_escaping = false then .ok (.string acc, i + 1)
      else
        tokenize_string_loop fuel chars (i + 1) (acc ++ [ch])
          (if ch = '\\' then !is_escaping else false)
    else .err .UnclosedQuotes

/-- `tokenize_string` (src/tokenize.rs lines 134-156), running the loop with
fuel it cannot exhaust. -/
def tokenize_string (chars : List Char) (i : Nat) : RunResult TokenizeError (Token × Nat) :=
  tokenize_string_loop (chars.length + 1) chars i [] false

/-- `make_token` (src/tokenize.rs lines 48-76): skip whitespace, then dispatch
on the current character; single-character structural tokens leave the index
on their own character, the keyword and string tokenizers leave it on the
token's last character, and `tokenize_float` leaves it past the token. -/
def make_token (chars : List Char) (index : Nat) : RunResult TokenizeError (Token × Nat) :=
  match skip_ws chars index with
  | .err e => .err e
  | .panic => .panic
  | .outOfFuel => .outOfFuel
  | .ok (ch, j) =>
    if ch = '{' then .ok (.leftBrace, j)
    else if ch = '}' then .ok (.rightBrace, j)
    else if ch = '[' then .ok (.leftBracket, j)
    else if ch = ']' then .ok (.rightBracket, j)
    else if ch = ',' then .ok (.comma, j)
    else if ch = ':' then .ok (.colon, j)
    else if ch = 'n' then tokenize_null chars j
    else if ch = 't' then tokenize_true chars j
    else if ch = 'f' then tokenize_false chars j
    else if ch.isDigit then tokenize_float chars j
    else if ch = '"' then tokenize_string chars j
    else .err (.CharNotRecognized ch)

/-- The outer loop of `tokenize` (src/tokenize.rs lines 40-44): while the
index is below the input length, make one token, push it, and advance the
index one past the position `make_token` returned. Fuel bounds the number of
iterations; the entry point supplies more fuel than the loop can consume. -/
def tokenize_loop : Nat → List Char → Nat → List Token → RunResult TokenizeError (List Token)
  | 0, _, _, _ => .outOfFuel
  | fuel + 1, chars, index, acc =>
    if index < chars.length then
      match make_token chars index with
      | .ok (t, j) => tokenize_loop fuel chars (j + 1) (acc ++ [t])
      | .err e => .err e
      | .panic => .panic
      | .outOfFuel => .outOfFuel
    else .ok acc

/-- `tokenize` (src/tokenize.rs lines 35-46). -/
def tokenize (input : List Char) : RunResult TokenizeError (List Token) :=
  tokenize_loop (input.length + 1) input 0 []

/-- `TokenParseError` from src/parse.rs (the full enum, including the variants
the parser never constructs). -/
inductive TokenParseError where
  | EarlyEOF
  | UnclosedBracket
  | UnclosedBrace
  | UnfinishedEscape
  | InvalidHexValue
  | InvalidCodePointValue
  | ExpectedColon
  | ExpectedComma
  | ExpectedValue
  | ExpectedProperty
  | NeedsComma
  | TrailingComma
deriving DecidableEq, Repr

/-- `Value` from the crate root: null, boolean, number (64-bit float in the
source, abstracted here as the numeric text, see the header note), string,
array, and object. The object's `HashMap<String, Value>` is modelled as an
association list with unique keys maintained by `hm_insert`; iteration order
is not observable in any claim. -/
inductive Value where
  | null
  | boolean (b : Bool)
  | number (s : List Char)
  | string (s : List Char)
  | array (elements : List Value)
  | object (entries : List (List Char × Value))
deriving Repr

/-- Rust `HashMap::insert`: replace the value of an existing key in place,
or add a new entry for an absent key. -/
def hm_insert (m : List (List Char × Value)) (k : List Char) (v : Value) :
    List (List Char × Value) :=
  if m.any (fun p => p.1 = k) then
    m.map (fun p => if p.1 = k then (k, v) else p)
  else m ++ [(k, v)]

/-- Rust `char::to_digit(16)`: ASCII `0`-`9`, `a`-`f`, `A`-`F` map to their
hexadecimal value, everything else to `none`. -/
def hex_digit (c : Char) : Option Nat :=
  let n := c.toNat
  if 48 ≤ n ∧ n ≤ 57 then some (n - 48)
  else if 97 ≤ n ∧ n ≤ 102 then some (n - 87)
  else if 65 ≤ n ∧ n ≤ 70 then some (n - 55)
  else none

/-- Rust `char::from_u32`: `some` exactly on Unicode scalar values (below the
surrogate range, or above it and below 0x110000). -/
def from_u32 (n : Nat) : Option Char :=
  if n.isValidChar then some (Char.ofNat n) else none

/-- The single-character escape map of `unescape_string`
(src/parse.rs lines 42-51 and the fallthrough on line 66): `"` and `\` map to
themselves, `b` to U+0008, `f` to U+0012 (the source writes the Rust escape
code point 0x12, not form feed 0x0C), `n` `r` `t` to newline, carriage return,
tab, and any other character is copied through verbatim. -/
def escape_map (c : Char) : Char :=
  if c = '"' then '"'
  else if c = '\\' then '\\'
  else if c = 'b' then Char.ofNat 8
  else if c = 'f' then Char.ofNat 18
  else if c = 'n' then '\n'
  else if c = 'r' then '\r'
  else if c = 't' then '\t'
  else c

/-- The scanning loop of `unescape_string` (src/parse.rs lines 34-76), with
the `is_escaping` flag explicit and one unit of fuel per processed character
(the entry point supplies more fuel than the scan can consume, so `outOfFuel`
is unreachable there; the scan never panics). Outside escaping, a backslash
sets the flag (and is not copied) and any other character is copied. While
escaping, `u` reads the four following characters one at a time —
`UnfinishedEscape` when the input ends first, `InvalidHexValue` at the first
non-hex-digit — combines them big-endian (16^3, 16^2, 16, 1) and appends
`from_u32` of the sum (`InvalidHexValue` when that is not a scalar value);
every other escaped character appends `escape_map` of itself. The flag is
cleared after each escaped character. Input exhaustion in any state returns
the accumulated output. -/
def unescapeGo : Nat → Bool → List Char → RunResult TokenParseError (List Char)
  | 0, _, _ => .outOfFuel
  | _ + 1, _, [] => .ok []
  | fuel + 1, true, c :: rest =>
    if c = 'u' then
      match rest with
      | [] => .err .UnfinishedEscape
      | c1 :: r1 =>
        match hex_digit c1 with
        | none => .err .InvalidHexValue
        | some d1 =>
          match r1 with
          | [] => .err .UnfinishedEscape
          | c2 :: r2 =>
            match hex_digit c2 with
            | none => .err .InvalidHexValue
            | some d2 =>
              match r2 with
              | [] => .err .UnfinishedEscape
              | c3 :: r3 =>
                match hex_digit c3 with
                | none => .err .InvalidHexValue
                | some d3 =>
                  match r3 with
                  | [] => .err .UnfinishedEscape
                  | c4 :: r4 =>
                    match hex_digit c4 with
                    | none => .err .InvalidHexValue
                    | some d4 =>
                      match from_u32 (4096 * d1 + 256 * d2 + 16 * d3 + d4) with
                      | none => .err .InvalidHexValue
                      | some ch =>
                        match unescapeGo fuel false r4 with
                        | .ok out => .ok (ch :: out)
                        | .err e => .err e
                        | .panic => .panic
                        | .outOfFuel => .outOfFuel
    else
      match unescapeGo fuel false rest with
      | .ok out => .ok (escape_map c :: out)
      | .err e => .err e
      | .panic => .panic
      | .outOfFuel => .outOfFuel
  | fuel + 1, false, c :: rest =>
    if c = '\\' then unescapeGo fuel true rest
    else
      match unescapeGo fuel false rest with
      | .ok out => .ok (c :: out)
      | .err e => .err e
      | .panic => .panic
      | .outOfFuel => .outOfFuel

/-- `unescape_string` (src/parse.rs lines 34-76): the scan starts outside
escaping with an empty output, with fuel it cannot exhaust (at least one
character is consumed per fuel unit). -/
def unescape_string (input : List Char) : RunResult TokenParseError (List Char) :=
  unescapeGo (input.length + 1) false input

/-- `parse_string` (src/parse.rs lines 29-32). -/
def parse_string (input : List Char) : RunResult TokenParseError Value :=
  match unescape_string input with
  | .ok s => .ok (.string s)
  | .err e => .err e
  | .panic => .panic
  | .outOfFuel => .outOfFuel

mutual

/-- `parse_tokens` (src/parse.rs lines 9-27), on explicit fuel: read the token
at the cursor (panic when the cursor is past the end, as `tokens[*index]`
would), advance past it when it is a scalar, and dispatch: scalars yield the
corresponding Value (strings through the unescape routine), `[` and `{` hand
off to the container loops with the cursor still on the opening token, and
anything else fails with `ExpectedValue`. -/
def parse_tokens_f : Nat → List Token → Nat → RunResult TokenParseError (Value × Nat)
  | 0, _, _ => .outOfFuel
  | fuel + 1, tokens, index =>
    if h : index < tokens.length then
      match tokens.get ⟨index, h⟩ with
      | .null => .ok (.null, index + 1)
      | .falseLit => .ok (.boolean false, index + 1)
      | .trueLit => .ok (.boolean true, index + 1)
      | .number n => .ok (.number n, index + 1)
      | .string s =>
        match parse_string s with
        | .ok v => .ok (v, index + 1)
        | .err e => .err e
        | .panic => .panic
        | .outOfFuel => .outOfFuel
      | .leftBracket => parse_array_go fuel tokens index []
      | .leftBrace => parse_object_go fuel tokens index []
      | _ => .err .ExpectedValue
    else .panic

/-- The loop of `parse_array` (src/parse.rs lines 78-103), on explicit fuel:
each iteration advances past the opening bracket or the previous comma, stops
when the new current token is `]` (consuming it), otherwise parses one value
and then requires `,` (continue) or `]` (stop, consumed) — anything else fails
with `ExpectedComma`. Token reads past the end of the sequence panic. -/
def parse_array_go : Nat → List Token → Nat → List Value → RunResult TokenParseError (Value × Nat)
  | 0, _, _, _ => .outOfFuel
  | fuel + 1, tokens, index, acc =>
    if h : index + 1 < tokens.length then
      if tokens.get ⟨index + 1, h⟩ = .rightBracket then .ok (.array acc, index + 2)
      else
        match parse_tokens_f fuel tokens (index + 1) with
        | .ok (v, j) =>
          if h2 : j < tokens.length then
            match tokens.get ⟨j, h2⟩ with
            | .comma => parse_array_go fuel tokens j (acc ++ [v])
            | .rightBracket => .ok (.array (acc ++ [v]), j + 1)
            | _ => .err .ExpectedComma
          else .panic
        | .err e => .err e
        | .panic => .panic
        | .outOfFuel => .outOfFuel
    else .panic

/-- The loop of `parse_object` (src/parse.rs lines 105-139), on explicit fuel:
each iteration advances past the opening brace or the previous comma, stops
when the new current token is `}` (consuming it), otherwise requires a string
token (else `ExpectedProperty`), then a colon (else `ExpectedColon`),
unescapes the key, parses the value, inserts the pair (later duplicates
overwrite), and requires `,` (continue) or `}` (stop, consumed) — anything
else fails with `ExpectedComma`. Token reads past the end panic. -/
def parse_object_go : Nat → List Token → Nat → List (List Char × Value) →
    RunResult TokenParseError (Value × Nat)
  | 0, _, _, _ => .outOfFuel
  | fuel + 1, tokens, index, acc =>
    if h : index + 1 < tokens.length then
      if tokens.get ⟨index + 1, h⟩ = .rightBrace then .ok (.object acc, index + 2)
      else
        match tokens.get ⟨index + 1, h⟩ with
        | .string s =>
          if h2 : index + 2 < tokens.length then
            if tokens.get ⟨index + 2, h2⟩ = .colon then
              match unescape_string s with
              | .err e => .err e
              | .panic => .panic
              | .outOfFuel => .outOfFuel
              | .ok key =>
                match parse_tokens_f fuel tokens (index + 3) with
                | .ok (v, j) =>
                  if h3 : j < tokens.length then
                    match tokens.get ⟨j, h3⟩ with
                    | .comma => parse_object_go fuel tokens j (hm_insert acc key v)
                    | .rightBrace => .ok (.object (hm_insert acc key v), j + 1)
                    | _ => .err .ExpectedComma
                  else .panic
                | .err e => .err e
                | .panic => .panic
                | .outOfFuel => .outOfFuel
            else .err .ExpectedColon
          else .panic
        | _ => .err .ExpectedProperty
    else .panic

end

/-- `parse_tokens` entry point (src/parse.rs lines 9-27), with a fuel budget
that the recursion cannot exhaust (every fuel step either consumes a token or
moves to a strictly later cursor position). -/
def parse_tokens (tokens : List Token) (index : Nat) : RunResult TokenParseError (Value × Nat) :=
  parse_tokens_f (tokens.length + 1) tokens index

/-- Escaping of string content for `encode` (see `encode` below): a double
quote or backslash is preceded by a backslash, everything else is emitted
verbatim (sufficient for ASCII content without control characters). -/
def encode_chars : List Char → List Char
  | [] => []
  | c :: rest => (if c = '"' ∨ c = '\\' then ['\\', c] else [c]) ++ encode_chars rest

mutual

/-- Modelled from the spec: serialization of a Value back to JSON text is
excluded from the repository (spec §1 places encoding out of scope, so no
encoder exists under src/). This is the conforming compact encoder the
round-trip property of spec §8 quantifies over: `null`/`true`/`false` for the
literals, the numeric text for numbers, quoted content with `"` and `\`
escaped for strings, comma-separated bracketed items for arrays, and
comma-separated `"key":value` pairs in braces for objects, with no extra
whitespace. -/
def encode : Value → List Char
  | .null => ['n', 'u', 'l', 'l']
  | .boolean false => ['f', 'a', 'l', 's', 'e']
  | .boolean true => ['t', 'r', 'u', 'e']
  | .number s => s
  | .string s => '"' :: encode_chars s ++ ['"']
  | .array vs => '[' :: encode_items vs ++ [']']
  | .object es => '{' :: encode_entries es ++ ['}']

/-- Comma-separated encoding of array elements (part of `encode`). -/
def encode_items : List Value → List Char
  | [] => []
  | [v] => encode v
  | v :: vs => encode v ++ ',' :: encode_items vs

/-- Comma-separated encoding of object entries (part of `encode`). -/
def encode_entries : List (List Char × Value) → List Char
  | [] => []
  | [(k, v)] => '"' :: encode_chars k ++ '"' :: ':' :: encode v
  | (k, v) :: es => '"' :: encode_chars k ++ '"' :: ':' :: encode v ++ ',' :: encode_entries es

end

/-! ## Auxiliary definitions and facts about the unescape scan -/

/-- Whether a run outcome is a normal result. -/
def RunResult.isOk {ε α : Type} : RunResult ε α → Bool
  | .ok _ => true
  | _ => false

/-- The value of the `is_escaping` flag after the unescape scan has processed
`s` starting in state `esc`, with every character handled as a single step.
This matches the state of the source scan on every input the scan accepts,
because the four characters a successful `\u` escape consumes are hexadecimal
digits and hence not backslashes. -/
def final_esc : Bool → List Char → Bool
  | esc, [] => esc
  | true, _ :: rest => final_esc false rest
  | false, c :: rest => if c = '\\' then final_esc true rest else final_esc false rest

/-- Whether the unescape scan started in state `esc` ever reaches the
character `u` in escaping state (i.e. processes a `\u` escape). -/
def has_u_escape : Bool → List Char → Bool
  | _, [] => false
  | true, c :: rest => if c = 'u' then true else has_u_escape false rest
  | false, c :: rest => if c = '\\' then has_u_escape true rest else has_u_escape false rest

/-- A hexadecimal digit's value is below 16. -/
theorem hex_digit_lt_16 (c : Char) (d : Nat) (h : hex_digit c = some d) : d < 16 := by
  simp only [hex_digit] at h
  split_ifs at h with h1 h2 h3 <;> simp_all <;> omega

/-- A character with a hexadecimal value is not a backslash. -/
theorem hex_digit_ne_backslash (c : Char) (d : Nat) (h : hex_digit c = some d) :
    c ≠ '\\' := by
  intro hc
  subst hc
  simp [hex_digit] at h

/-- The result of the unescape scan does not depend on the fuel, as long as
the fuel exceeds the input length (one fuel unit processes at least one
character). -/
theorem unescapeGo_fuel_irrel :
    ∀ (f1 f2 : Nat) (esc : Bool) (s : List Char), s.length < f1 → s.length < f2 →
      unescapeGo f1 esc s = unescapeGo f2 esc s := by
  intro f1
  induction f1 with
  | zero => intro f2 esc s h1 _; omega
  | succ f1 ih =>
    intro f2 esc s h1 h2
    cases f2 with
    | zero => omega
    | succ f2 =>
      match s with
      | [] => cases esc <;> rfl
      | c :: rest =>
        have hr1 : rest.length < f1 := by simp only [List.length_cons] at h1; omega
        have hr2 : rest.length < f2 := by simp only [List.length_cons] at h2; omega
        cases esc with
        | false =>
          by_cases hc : c = '\\'
          · subst hc
            simpa [unescapeGo] using ih f2 true rest hr1 hr2
          · simp [unescapeGo, hc, ih f2 false rest hr1 hr2]
        | true =>
          by_cases hc : c = 'u'
          · subst hc
            match rest with
            | [] => rfl
            | [c1] => simp [unescapeGo]
            | [c1, c2] => simp [unescapeGo]
            | [c1, c2, c3] => simp [unescapeGo]
            | c1 :: c2 :: c3 :: c4 :: r4 =>
              have hr41 : r4.length < f1 := by
                simp only [List.length_cons] at h1; omega
              have hr42 : r4.length < f2 := by
                simp only [List.length_cons] at h2; omega
              simp [unescapeGo, ih f2 false r4 hr41 hr42]
          · simp [unescapeGo, hc, ih f2 false rest hr1 hr2]

/-- A scan that never reaches a `\u` escape cannot fail: every non-`u` escaped
character and every literal character is simply appended. -/
theorem unescapeGo_ok_of_no_u :
    ∀ (f : Nat) (s : List Char) (esc : Bool), s.length < f →
      has_u_escape esc s = false → ∃ out, unescapeGo f esc s = .ok out := by
  intro f
  induction f with
  | zero => intro s esc h _; omega
  | succ f ih =>
    intro s esc hlen hu
    match s with
    | [] => exact ⟨[], by cases esc <;> rfl⟩
    | c :: rest =>
      have hr : rest.length < f := by simp only [List.length_cons] at hlen; omega
      cases esc with
      | true =>
        have hcu : ¬ c = 'u' := by
          intro hc
          simp [has_u_escape, hc] at hu
        have hrest : has_u_escape false rest = false := by
          simpa [has_u_escape, hcu] using hu
        obtain ⟨out, hout⟩ := ih rest false hr hrest
        exact ⟨escape_map c :: out, by simp [unescapeGo, hcu, hout]⟩
      | false =>
        by_cases hc : c = '\\'
        · subst hc
          have hrest : has_u_escape true rest = false := by
            simpa [has_u_escape] using hu
          obtain ⟨out, hout⟩ := ih rest true hr hrest
          exact ⟨out, by simp [unescapeGo, hout]⟩
        · have hrest : has_u_escape false rest = false := by
            simpa [has_u_escape, hc] using hu
          obtain ⟨out, hout⟩ := ih rest false hr hrest
          exact ⟨c :: out, by simp [unescapeGo, hc, hout]⟩

/-- Appending a backslash to an input the scan accepts while ending outside
escaping state does not change the result: the appended backslash only sets
the escape flag, and the input then ends. -/
theorem unescapeGo_append_backslash :
    ∀ (f : Nat) (s : List Char) (esc : Bool) (out : List Char), s.length + 1 < f →
      unescapeGo f esc s = .ok out → final_esc esc s = false →
      unescapeGo f esc (s ++ ['\\']) = .ok out := by
  intro f
  induction f with
  | zero => intro s esc out hlen _ _; omega
  | succ f ih =>
    intro s esc out hlen hok hfe
    match s with
    | [] =>
      have hesc : esc = false := by simpa [final_esc] using hfe
      subst hesc
      have hout : out = [] := by
        have := hok
        simp [unescapeGo] at this
        exact this
      subst hout
      cases f with
      | zero => omega
      | succ f => rfl
    | c :: rest =>
      have hlen' : rest.length + 1 < f := by simp only [List.length_cons] at hlen; omega
      cases esc with
      | false =>
        by_cases hc : c = '\\'
        · subst hc
          have hok' : unescapeGo f true rest = .ok out := by
            simpa [unescapeGo] using hok
          have hfe' : final_esc true rest = false := by
            simpa [final_esc] using hfe
          simpa [unescapeGo] using ih rest true out hlen' hok' hfe'
        · have hok' : ∃ o, unescapeGo f false rest = .ok o ∧ out = c :: o := by
            rcases hr : unescapeGo f false rest with o | e | _ | _ <;>
              simp [unescapeGo, hc, hr] at hok
            exact ⟨_, rfl, hok.symm⟩
          obtain ⟨o, hr, hco⟩ := hok'
          subst hco
          have hfe' : final_esc false rest = false := by
            simpa [final_esc, hc] using hfe
          simp [unescapeGo, hc, ih rest false o hlen' hr hfe']
      | true =>
        by_cases hc : c = 'u'
        · subst hc
          match rest with
          | [] => simp [unescapeGo] at hok
          | [c1] =>
            rcases h1 : hex_digit c1 with _ | d1 <;> simp [unescapeGo, h1] at hok
          | [c1, c2] =>
            rcases h1 : hex_digit c1 with _ | d1 <;>
              rcases h2 : hex_digit c2 with _ | d2 <;>
              simp [unescapeGo, h1, h2] at hok
          | [c1, c2, c3] =>
            rcases h1 : hex_digit c1 with _ | d1 <;>
              rcases h2 : hex_digit c2 with _ | d2 <;>
              rcases h3 : hex_digit c3 with _ | d3 <;>
              simp [unescapeGo, h1, h2, h3] at hok
          | c1 :: c2 :: c3 :: c4 :: r4 =>
            rcases h1 : hex_digit c1 with _ | d1
            · simp [unescapeGo, h1] at hok
            rcases h2 : hex_digit c2 with _ | d2
            · simp [unescapeGo, h1, h2] at hok
            rcases h3 : hex_digit c3 with _ | d3
            · simp [unescapeGo, h1, h2, h3] at hok
            rcases h4 : hex_digit c4 with _ | d4
            · simp [unescapeGo, h1, h2, h3, h4] at hok
            rcases hu : from_u32 (4096 * d1 + 256 * d2 + 16 * d3 + d4) with _ | ch
            · simp [unescapeGo, h1, h2, h3, h4, hu] at hok
            rcases hr : unescapeGo f false r4 with o | e | _ | _
            case ok =>
              have hout : out = ch :: o := by
                have := hok
                simp [unescapeGo, h1, h2, h3, h4, hu, hr] at this
                exact this.symm
              subst hout
              have hfe' : final_esc false r4 = false := by
                have e1 := hex_digit_ne_backslash c1 d1 h1
                have e2 := hex_digit_ne_backslash c2 d2 h2
                have e3 := hex_digit_ne_backslash c3 d3 h3
                have e4 := hex_digit_ne_backslash c4 d4 h4
                simpa [final_esc, e1, e2, e3, e4] using hfe
              have hlen4 : r4.length + 1 < f := by
                simp only [List.length_cons] at hlen
                omega
              simp [unescapeGo, h1, h2, h3, h4, hu, ih r4 false o hlen4 hr hfe']
            case err => simp [unescapeGo, h1, h2, h3, h4, hu, hr] at hok
            case panic => simp [unescapeGo, h1, h2, h3, h4, hu, hr] at hok
            case outOfFuel => simp [unescapeGo, h1, h2, h3, h4, hu, hr] at hok
        · have hok' : ∃ o, unescapeGo f false rest = .ok o ∧ out = escape_map c :: o := by
            rcases hr : unescapeGo f false rest with o | e | _ | _ <;>
              simp [unescapeGo, hc, hr] at hok
            exact ⟨_, rfl, hok.symm⟩
          obtain ⟨o, hr, hco⟩ := hok'
          subst hco
          have hfe' : final_esc false rest = false := by
            simpa [final_esc] using hfe
          simp [unescapeGo, hc, ih rest false o hlen' hr hfe']

/-! ## Theorems settling the claims -/

/-- Claim C1 (code-bug evaluation): the claim says that after a numeric run
the cursor advances only past the consumed number, so the immediately
following character becomes the next token. The code instead skips that
character: `tokenize_float` leaves the index already past the number and the
outer loop of `tokenize` still adds one, so tokenizing `1,2` yields the two
number tokens with no `Comma` token between them. -/
theorem c1_number_skips_following_char :
    tokenize ['1', ',', '2'] = .ok [.number ['1'], .number ['2']] ∧
    tokenize ['1', ',', '2'] ≠ .ok [.number ['1'], .comma, .number ['2']] := by
  exact ⟨rfl, by decide⟩

/-- Claim C2 (code-bug evaluation): the claim says a trailing comma before a
closing bracket or brace is rejected with an expected-comma/expected-value
error. The code instead accepts it: after a comma the loop's top-of-iteration
check sees the closer and breaks, so the tokens of `[1,2,]` parse to the
2-element array and the tokens of `{"a":1,}` parse to the 1-entry object. -/
theorem c2_trailing_comma_accepted :
    parse_tokens [.leftBracket, .number ['1'], .comma, .number ['2'], .comma, .rightBracket] 0
      = .ok (.array [.number ['1'], .number ['2']], 6) ∧
    parse_tokens [.leftBrace, .string ['a'], .colon, .number ['1'], .comma, .rightBrace] 0
      = .ok (.object [(['a'], .number ['1'])], 6) :=
  ⟨rfl, rfl⟩

/-- Claim C3 (code-bug evaluation): the round-trip property fails. Encoding
the one-element array holding the number 1 gives the text `[1]`; tokenizing
that text drops the `]` (the character after a number is skipped, see C1), and
parsing the resulting token sequence reads past its end (a panic in the Rust
source) instead of returning the original tree. -/
theorem c3_roundtrip_fails :
    encode (.array [.number ['1']]) = ['[', '1', ']'] ∧
    tokenize ['[', '1', ']'] = .ok [.leftBracket, .number ['1']] ∧
    parse_tokens [.leftBracket, .number ['1']] 0 = .panic :=
  ⟨rfl, rfl, rfl⟩

/-- Claim C4 (code-bug evaluation): the claim says parsing an unterminated
array's token stream fails with a classified error and never reads past the
end of the token sequence. The code instead indexes past the end of the token
slice (`tokens[*index]` with the cursor at the length), which is a panic in
the Rust source, both for a lone `[` and for `[` followed by a value. -/
theorem c4_unterminated_array_panics :
    parse_tokens [.leftBracket] 0 = .panic ∧
    parse_tokens [.leftBracket, .number ['1']] 0 = .panic :=
  ⟨rfl, rfl⟩

/-- Claim C5 (code-bug evaluation): the single-character escapes `\"` `\\`
`\b` `\n` `\r` `\t` decode to the specified characters, but `\f` decodes to
U+0012 (the source writes the code point 0x12 where form feed is 0x0C, its
own comment notwithstanding), so unescaping the two-character input `\f` does
not yield the form-feed character the claim specifies. -/
theorem c5_formfeed_escape_wrong :
    unescape_string ['\\', '"'] = .ok ['"'] ∧
    unescape_string ['\\', '\\'] = .ok ['\\'] ∧
    unescape_string ['\\', 'b'] = .ok [Char.ofNat 8] ∧
    unescape_string ['\\', 'n'] = .ok ['\n'] ∧
    unescape_string ['\\', 'r'] = .ok ['\r'] ∧
    unescape_string ['\\', 't'] = .ok ['\t'] ∧
    unescape_string ['\\', 'f'] = .ok [Char.ofNat 18] ∧
    Char.ofNat 18 ≠ Char.ofNat 12 :=
  ⟨rfl, rfl, rfl, rfl, rfl, rfl, rfl, by decide⟩

/-- Claim C7: parsing the token sequence of `{"a":1,"a":2}` succeeds, yields
an object in which the duplicated key `a` appears exactly once and maps to
the value of its last occurrence (the number 2), and raises no error for the
duplicate. -/
theorem c7_duplicate_keys_last_wins :
    parse_tokens [.leftBrace, .string ['a'], .colon, .number ['1'], .comma,
      .string ['a'], .colon, .number ['2'], .rightBrace] 0
      = .ok (.object [(['a'], .number ['2'])], 9) :=
  rfl

/-- Claim C8 (code-bug evaluation): the claim says every input whose first
non-whitespace character is `n`, `t` or `f` but which does not spell the full
keyword fails with `UnfinishedLiteralValue`, including inputs that end before
the keyword completes such as `nul`. The code returns that error only for
in-bounds mismatches (`nope`); on `nul` the keyword loop indexes past the end
of the character vector, a panic in the Rust source. -/
theorem c8_truncated_literal_panics :
    tokenize ['n', 'u', 'l'] = .panic ∧
    tokenize ['n', 'o', 'p', 'e'] = .err .UnfinishedLiteralValue :=
  ⟨rfl, rfl⟩

/-- Claim C9: tokenizing the empty input succeeds with the empty token
sequence — the `UnexpectedEof` condition arises only while skipping
whitespace after at least one character has been examined (as the
whitespace-only input shows), not on zero-length input. -/
theorem c9_empty_input_tokenizes_ok :
    tokenize [] = .ok [] ∧ tokenize [' '] = .err .UnexpectedEof :=
  ⟨rfl, rfl⟩


/-- Claim C6: in the shared unescape routine a `\u` escape reads exactly the
four following characters, combines four hexadecimal digits big-endian into a
16-bit value and appends the corresponding character when that value is a
valid Unicode scalar value (so `A` unescapes to `A`); a value in the
surrogate range fails with `InvalidHexValue`; input ending before four hex
digits are read fails with `UnfinishedEscape`; and a non-hex character among
the four fails with `InvalidHexValue`. -/
theorem c6_unicode_escape :
    (∀ (a b c d : Char) (d1 d2 d3 d4 : Nat) (rest out : List Char),
       hex_digit a = some d1 → hex_digit b = some d2 →
       hex_digit c = some d3 → hex_digit d = some d4 →
       (4096 * d1 + 256 * d2 + 16 * d3 + d4 < 55296 ∨
         57343 < 4096 * d1 + 256 * d2 + 16 * d3 + d4) →
       unescape_string rest = .ok out →
       unescape_string ('\\' :: 'u' :: a :: b :: c :: d :: rest)
         = .ok (Char.ofNat (4096 * d1 + 256 * d2 + 16 * d3 + d4) :: out)) ∧
    (∀ (a b c d : Char) (d1 d2 d3 d4 : Nat) (rest : List Char),
       hex_digit a = some d1 → hex_digit b = some d2 →
       hex_digit c = some d3 → hex_digit d = some d4 →
       55296 ≤ 4096 * d1 + 256 * d2 + 16 * d3 + d4 →
       4096 * d1 + 256 * d2 + 16 * d3 + d4 ≤ 57343 →
       unescape_string ('\\' :: 'u' :: a :: b :: c :: d :: rest)
         = .err .InvalidHexValue) ∧
    (∀ l : List Char, l.length < 4 → (∀ x ∈ l, (hex_digit x).isSome = true) →
       unescape_string ('\\' :: 'u' :: l) = .err .UnfinishedEscape) ∧
    (∀ (pre : List Char) (x : Char) (post : List Char), pre.length ≤ 3 →
       (∀ y ∈ pre, (hex_digit y).isSome = true) → hex_digit x = none →
       unescape_string ('\\' :: 'u' :: (pre ++ x :: post)) = .err .InvalidHexValue) ∧
    unescape_string ['\\', 'u', '0', '0', '4', '1'] = .ok ['A'] := by
  refine ⟨?_, ?_, ?_, ?_, rfl⟩
  · intro a b c d d1 d2 d3 d4 rest out ha hb hc hd hv hrest
    have hvalid : Nat.isValidChar (4096 * d1 + 256 * d2 + 16 * d3 + d4) := by
      have b1 := hex_digit_lt_16 a d1 ha
      have b2 := hex_digit_lt_16 b d2 hb
      have b3 := hex_digit_lt_16 c d3 hc
      have b4 := hex_digit_lt_16 d d4 hd
      rcases hv with h | h
      · exact Or.inl h
      · exact Or.inr ⟨h, by omega⟩
    have hrest2 : unescapeGo (rest.length + 1 + 1 + 1 + 1 + 1) false rest = .ok out := by
      rw [unescapeGo_fuel_irrel (rest.length + 1 + 1 + 1 + 1 + 1) (rest.length + 1)
        false rest (by omega) (by omega)]
      exact hrest
    simp only [unescape_string, List.length_cons]
    simp only [unescapeGo, ha, hb, hc, hd, from_u32, if_pos hvalid, hrest2]
    simp
  · intro a b c d d1 d2 d3 d4 rest ha hb hc hd hlo hhi
    have hnv : ¬ Nat.isValidChar (4096 * d1 + 256 * d2 + 16 * d3 + d4) := by
      intro hvc
      rcases hvc with h | ⟨h, _⟩ <;> omega
    simp only [unescape_string, List.length_cons]
    simp only [unescapeGo, ha, hb, hc, hd, from_u32, if_neg hnv]
    simp
  · intro l hlen hhex
    match l, hlen with
    | [], _ => rfl
    | [x], _ =>
      obtain ⟨dx, hdx⟩ := Option.isSome_iff_exists.mp (hhex x (by simp))
      simp only [unescape_string, List.length_cons]
      simp only [unescapeGo, hdx]
      simp
    | [x, y], _ =>
      obtain ⟨dx, hdx⟩ := Option.isSome_iff_exists.mp (hhex x (by simp))
      obtain ⟨dy, hdy⟩ := Option.isSome_iff_exists.mp (hhex y (by simp))
      simp only [unescape_string, List.length_cons]
      simp only [unescapeGo, hdx, hdy]
      simp
    | [x, y, z], _ =>
      obtain ⟨dx, hdx⟩ := Option.isSome_iff_exists.mp (hhex x (by simp))
      obtain ⟨dy, hdy⟩ := Option.isSome_iff_exists.mp (hhex y (by simp))
      obtain ⟨dz, hdz⟩ := Option.isSome_iff_exists.mp (hhex z (by simp))
      simp only [unescape_string, List.length_cons]
      simp only [unescapeGo, hdx, hdy, hdz]
      simp
  · intro pre x post hlen hhex hx
    match pre, hlen with
    | [], _ =>
      simp only [unescape_string, List.length_cons, List.nil_append]
      simp only [unescapeGo, hx]
      simp
    | [p], _ =>
      obtain ⟨dp, hdp⟩ := Option.isSome_iff_exists.mp (hhex p (by simp))
      simp only [unescape_string, List.length_cons, List.cons_append, List.nil_append]
      simp only [unescapeGo, hdp, hx]
      simp
    | [p, q], _ =>
      obtain ⟨dp, hdp⟩ := Option.isSome_iff_exists.mp (hhex p (by simp))
      obtain ⟨dq, hdq⟩ := Option.isSome_iff_exists.mp (hhex q (by simp))
      simp only [unescape_string, List.length_cons, List.cons_append, List.nil_append]
      simp only [unescapeGo, hdp, hdq, hx]
      simp
    | [p, q, r], _ =>
      obtain ⟨dp, hdp⟩ := Option.isSome_iff_exists.mp (hhex p (by simp))
      obtain ⟨dq, hdq⟩ := Option.isSome_iff_exists.mp (hhex q (by simp))
      obtain ⟨dr, hdr⟩ := Option.isSome_iff_exists.mp (hhex r (by simp))
      simp only [unescape_string, List.length_cons, List.cons_append, List.nil_append]
      simp only [unescapeGo, hdp, hdq, hdr, hx]
      simp

/-- Witness for C6: the general statements applied at concrete inputs —
`A` decodes to `A`, `\ud800` (a surrogate) and `\u0x41` (non-hex digit)
fail with `InvalidHexValue`, and `\u00` (input ends early) fails with
`UnfinishedEscape`. -/
theorem c6_unicode_escape_witness :
    unescape_string ['\\', 'u', '0', '0', '4', '1'] = .ok [Char.ofNat 65] ∧
    unescape_string ['\\', 'u', 'd', '8', '0', '0'] = .err .InvalidHexValue ∧
    unescape_string ['\\', 'u', '0', '0'] = .err .UnfinishedEscape ∧
    unescape_string ['\\', 'u', '0', 'x', '4', '1'] = .err .InvalidHexValue :=
  ⟨c6_unicode_escape.1 '0' '0' '4' '1' 0 0 4 1 [] [] rfl rfl rfl rfl (Or.inl (by omega)) rfl,
   c6_unicode_escape.2.1 'd' '8' '0' '0' 13 8 0 0 [] rfl rfl rfl rfl (by omega) (by omega),
   c6_unicode_escape.2.2.1 ['0', '0'] (by decide) (by decide),
   c6_unicode_escape.2.2.2.1 ['0'] 'x' ['4', '1'] (by decide) (by decide) rfl⟩

/-- Claim C10: a raw payload whose scan succeeds and ends outside escaping
state (its trailing backslash is unmatched and lone) keeps its result when
that backslash is appended — the backslash is silently dropped rather than
reported as an error — and, more generally, unescaping never fails on an
input whose scan reaches no `\u` escape. -/
theorem c10_lenient_backslash_handling :
    (∀ (s out : List Char), unescape_string s = .ok out → final_esc false s = false →
       unescape_string (s ++ ['\\']) = .ok out) ∧
    (∀ s : List Char, has_u_escape false s = false →
       (unescape_string s).isOk = true) := by
  constructor
  · intro s out hok hfe
    have hok2 : unescapeGo (s.length + 1 + 1) false s = .ok out := by
      rw [unescapeGo_fuel_irrel (s.length + 1 + 1) (s.length + 1) false s (by omega) (by omega)]
      exact hok
    have key := unescapeGo_append_backslash (s.length + 1 + 1) s false out (by omega) hok2 hfe
    have hlen : (s ++ ['\\']).length = s.length + 1 := by simp
    simp only [unescape_string, hlen]
    exact key
  · intro s hu
    obtain ⟨out, hout⟩ := unescapeGo_ok_of_no_u (s.length + 1) s false (by omega) hu
    simp only [unescape_string, hout]
    rfl

/-- Witness for C10: the payload `a\` (lone trailing backslash) unescapes to
`a`, and its scan reaches no `\u` escape so it cannot fail. -/
theorem c10_lenient_backslash_handling_witness :
    unescape_string ['a', '\\'] = .ok ['a'] ∧
    (unescape_string ['a', '\\']).isOk = true :=
  ⟨c10_lenient_backslash_handling.1 ['a'] ['a'] rfl rfl,
   c10_lenient_backslash_handling.2 ['a', '\\'] rfl⟩

end JsonParsing
